import Mathlib

/-!
Shallow embedding of the block/transaction validation core of
`src/validation.cpp` (a proof-of-work full node), together with theorems
checking the natural-language specification against the code.

Machine integers are modelled as `Nat`/`Int`; where the source relies on
wrap-around or reinterpreting casts this is made explicit with `% 2 ^ w`.
Constants and small helper predicates that live in headers outside
`src/validation.cpp` (consensus constants, script predicates, reject codes)
are modelled from the specification and marked as such in their doc comments.
-/

namespace Validation

/-- Modelled from the spec: the lock-time verification flag bit
`LOCKTIME_VERIFY_SEQUENCE` from the consensus header (not under `src/`);
it is the low bit, `1 << 0`. -/
def LOCKTIME_VERIFY_SEQUENCE : Nat := 1

/-- Modelled from the spec: `CTxIn::SEQUENCE_LOCKTIME_DISABLE_FLAG`
(`1 << 31`) from the transaction primitives header (not under `src/`):
inputs whose sequence carries this bit are exempt from BIP68. -/
def SEQUENCE_LOCKTIME_DISABLE_FLAG : Nat := 2 ^ 31

/-- Modelled from the spec: `CTxIn::SEQUENCE_LOCKTIME_TYPE_FLAG` (`1 << 22`)
from the transaction primitives header (not under `src/`): selects a
time-based rather than height-based relative lock. -/
def SEQUENCE_LOCKTIME_TYPE_FLAG : Nat := 2 ^ 22

/-- Modelled from the spec: `CTxIn::SEQUENCE_LOCKTIME_MASK` (`0x0000ffff`)
from the transaction primitives header (not under `src/`). -/
def SEQUENCE_LOCKTIME_MASK : Nat := 0xffff

/-- Modelled from the spec: `CTxIn::SEQUENCE_LOCKTIME_GRANULARITY` (`9`)
from the transaction primitives header (not under `src/`). -/
def SEQUENCE_LOCKTIME_GRANULARITY : Nat := 9

/-- Reinterpret a C++ `int32_t` value (held as a mathematical integer) as
`uint32_t`, as done by `static_cast<uint32_t>(tx.nVersion)`. -/
def toUInt32Nat (v : Int) : Nat := (v % (2 ^ 32 : Int)).toNat

/-- An outpoint `(txid, output index)`; the txid hash is abstracted as a
natural number. -/
structure COutPoint where
  hash : Nat
  n : Nat
deriving DecidableEq, Repr

/-- Modelled from the spec: the null prevout marker used by coinbase inputs
(zero hash, index `0xffffffff`), from the transaction primitives header
(not under `src/`). -/
def COutPoint.IsNull (o : COutPoint) : Bool :=
  o.hash == 0 && o.n == 0xffffffff

/-- A transaction input: its previous outpoint and its `nSequence`
(a `uint32_t`, held as a `Nat < 2^32`). -/
structure CTxIn where
  prevout : COutPoint
  nSequence : Nat
deriving DecidableEq, Repr

/-- Modelled from the spec: scripts are external to the validation core
(the script interpreter is out of scope); only equality and the
provably-unspendable test are used by the embedded code, so a script is an
opaque byte-blob identifier together with its unspendability verdict. -/
structure CScript where
  code : Nat
  unspendable : Bool
deriving DecidableEq, Repr

/-- `CScript::IsUnspendable` (script header, not under `src/`), supplied as
a field of the abstract script. -/
def CScript.IsUnspendable (s : CScript) : Bool := s.unspendable

/-- A transaction output: value in satoshi (`int64_t`) and locking script. -/
structure CTxOut where
  nValue : Int
  scriptPubKey : CScript
deriving DecidableEq, Repr

/-- The transaction fields used by the embedded validation code.
`GetId`/`GetHash` are abstracted as a stored identifier. -/
structure CTransaction where
  nVersion : Int
  vin : List CTxIn
  vout : List CTxOut
  txid : Nat
deriving DecidableEq, Repr

def CTransaction.GetId (tx : CTransaction) : Nat := tx.txid

/-- `CTransaction::GetValueOut` (transaction primitives, not under `src/`):
the sum of the output values, per the spec (`Σ output.value`). -/
def CTransaction.GetValueOut (tx : CTransaction) : Int :=
  (tx.vout.map CTxOut.nValue).sum

/-- `CTransaction::IsCoinBase` (transaction primitives, not under `src/`):
exactly one input whose prevout is null, per the spec's coinbase shape. -/
instance : Inhabited CTxIn := ⟨⟨⟨0, 0⟩, 0⟩⟩

def CTransaction.IsCoinBase (tx : CTransaction) : Bool :=
  tx.vin.length == 1 && tx.vin.headI.prevout.IsNull

/-- The facets of a `CBlockIndex` consulted by the sequence-lock code:
its height, whether it has a parent, the median-time-past of its ancestor
at a given height (`GetAncestor(h)->GetMedianTimePast()`, from the chain
header, not under `src/`, supplied as a function), and the parent's
median-time-past. -/
structure CBlockIndexSL where
  nHeight : Int
  hasPrev : Bool
  ancestorMTP : Nat → Int
  pprevMTP : Int

/-- The BIP68 enable test exactly as the source parses:
`static_cast<uint32_t>(tx.nVersion) >= 2 && (flags & LOCKTIME_VERIFY_SEQUENCE != 0)`,
where by C++ precedence the second conjunct is
`flags & (LOCKTIME_VERIFY_SEQUENCE != 0)` with the bool converted to 0/1. -/
def enforceBIP68AsParsed (nVersion : Int) (flags : Nat) : Bool :=
  decide (2 ≤ toUInt32Nat nVersion) &&
    decide (flags &&& (if LOCKTIME_VERIFY_SEQUENCE ≠ 0 then 1 else 0) ≠ 0)

/-- The enable test as the spec says it was likely intended:
`(flags & LOCKTIME_VERIFY_SEQUENCE) != 0`. -/
def enforceBIP68Intended (nVersion : Int) (flags : Nat) : Bool :=
  decide (2 ≤ toUInt32Nat nVersion) &&
    decide (flags &&& LOCKTIME_VERIFY_SEQUENCE ≠ 0)

/-- One iteration of the input loop of `CalculateSequenceLocks`:
disabled inputs contribute nothing; type-flagged inputs raise the time
lock from the ancestor median-time-past; others raise the height lock. -/
def seqLockStep (block : CBlockIndexSL) (acc : Int × Int) (txin : CTxIn)
    (nCoinHeight : Int) : Int × Int :=
  if txin.nSequence &&& SEQUENCE_LOCKTIME_DISABLE_FLAG ≠ 0 then acc
  else if txin.nSequence &&& SEQUENCE_LOCKTIME_TYPE_FLAG ≠ 0 then
    let nCoinTime := block.ancestorMTP (max (nCoinHeight - 1) 0).toNat
    (acc.1,
     max acc.2
       (nCoinTime +
        (((txin.nSequence &&& SEQUENCE_LOCKTIME_MASK) <<<
            SEQUENCE_LOCKTIME_GRANULARITY : Nat) : Int) - 1))
  else
    (max acc.1
       (nCoinHeight +
        ((txin.nSequence &&& SEQUENCE_LOCKTIME_MASK : Nat) : Int) - 1),
     acc.2)

/-- The input loop of `CalculateSequenceLocks`, folding `seqLockStep` over
the inputs paired with their previous-output heights.  (The source also
zeroes the height entry of each disabled input in the in/out vector; that
write is never read by any caller after the call and is omitted here.) -/
def sequenceLockLoop (block : CBlockIndexSL) :
    List CTxIn → List Int → Int × Int → Int × Int
  | [], _, acc => acc
  | _, [], acc => acc
  | txin :: ins, h :: hs, acc =>
      sequenceLockLoop block ins hs (seqLockStep block acc txin h)

/-- `CalculateSequenceLocks` (`src/validation.cpp`): starts from the
no-constraint pair `(-1, -1)`; if the parsed enable test fails, returns it
unchanged; otherwise folds the per-input lock computation. -/
def CalculateSequenceLocks (tx : CTransaction) (flags : Nat)
    (prevHeights : List Int) (block : CBlockIndexSL) : Int × Int :=
  if enforceBIP68AsParsed tx.nVersion flags then
    sequenceLockLoop block tx.vin prevHeights (-1, -1)
  else (-1, -1)

/-- `EvaluateSequenceLocks` (`src/validation.cpp`): asserts the block has a
parent (`none` models the assertion failing), then the lock is satisfied
unless `min_height >= block.nHeight` or `min_time >= parent median-time-past`. -/
def EvaluateSequenceLocks (block : CBlockIndexSL) (lockPair : Int × Int) :
    Option Bool :=
  if block.hasPrev then
    some (if lockPair.1 ≥ block.nHeight ∨ lockPair.2 ≥ block.pprevMTP
          then false else true)
  else none

/-- `SequenceLocks` (`src/validation.cpp`): the composition of the two. -/
def SequenceLocks (tx : CTransaction) (flags : Nat) (prevHeights : List Int)
    (block : CBlockIndexSL) : Option Bool :=
  EvaluateSequenceLocks block (CalculateSequenceLocks tx flags prevHeights block)

/-- C1: `CalculateSequenceLocks` enforces BIP68 exactly when the
transaction's `nVersion`, compared as `uint32_t`, is at least 2 and the
`LOCKTIME_VERIFY_SEQUENCE` bit (bit 0) is set in `flags`, and otherwise
returns the no-constraint pair `(-1, -1)`; in particular the enable test
as parsed (`flags & (LOCKTIME_VERIFY_SEQUENCE != 0)`) agrees with the
intended `(flags & LOCKTIME_VERIFY_SEQUENCE) != 0` at every `flags` value. -/
theorem calculateSequenceLocks_bip68_enable (tx : CTransaction) (flags : Nat)
    (prevHeights : List Int) (block : CBlockIndexSL) :
    enforceBIP68AsParsed tx.nVersion flags =
      enforceBIP68Intended tx.nVersion flags ∧
    (enforceBIP68Intended tx.nVersion flags = true ↔
      2 ≤ toUInt32Nat tx.nVersion ∧ Nat.testBit flags 0) ∧
    CalculateSequenceLocks tx flags prevHeights block =
      (if enforceBIP68Intended tx.nVersion flags then
        sequenceLockLoop block tx.vin prevHeights (-1, -1)
      else (-1, -1)) := by
  have hparse : enforceBIP68AsParsed tx.nVersion flags =
      enforceBIP68Intended tx.nVersion flags := by
    unfold enforceBIP68AsParsed enforceBIP68Intended LOCKTIME_VERIFY_SEQUENCE
    norm_num
  refine ⟨hparse, ?_, ?_⟩
  · unfold enforceBIP68Intended LOCKTIME_VERIFY_SEQUENCE
    have hand : flags &&& 1 = flags % 2 := Nat.and_one_is_mod flags
    have hbit : Nat.testBit flags 0 = decide (flags % 2 = 1) := by
      rw [Nat.testBit_zero]
    constructor
    · intro h
      rw [Bool.and_eq_true, decide_eq_true_eq, decide_eq_true_eq] at h
      refine ⟨h.1, ?_⟩
      rw [hbit, decide_eq_true_eq]
      rw [hand] at h
      omega
    · rintro ⟨h1, h2⟩
      rw [hbit, decide_eq_true_eq] at h2
      rw [Bool.and_eq_true, decide_eq_true_eq, decide_eq_true_eq, hand]
      exact ⟨h1, by omega⟩
  · unfold CalculateSequenceLocks
    rw [hparse]

/-- C2: `EvaluateSequenceLocks` reports the lock satisfied iff the computed
`min_height` is strictly below the block's height and the computed
`min_time` is strictly below the parent's median-time-past; `SequenceLocks`
is its composition with `CalculateSequenceLocks`. -/
theorem evaluateSequenceLocks_strict (block : CBlockIndexSL)
    (lockPair : Int × Int) (tx : CTransaction) (flags : Nat)
    (prevHeights : List Int) (hprev : block.hasPrev = true) :
    (EvaluateSequenceLocks block lockPair = some true ↔
      lockPair.1 < block.nHeight ∧ lockPair.2 < block.pprevMTP) ∧
    (EvaluateSequenceLocks block lockPair = some false ↔
      lockPair.1 ≥ block.nHeight ∨ lockPair.2 ≥ block.pprevMTP) ∧
    SequenceLocks tx flags prevHeights block =
      EvaluateSequenceLocks block
        (CalculateSequenceLocks tx flags prevHeights block) := by
  refine ⟨?_, ?_, rfl⟩
  · unfold EvaluateSequenceLocks
    rw [hprev]
    simp only [if_true]
    by_cases h : lockPair.1 ≥ block.nHeight ∨ lockPair.2 ≥ block.pprevMTP
    · simp [h]
      omega
    · simp [h]
      omega
  · unfold EvaluateSequenceLocks
    rw [hprev]
    simp only [if_true]
    by_cases h : lockPair.1 ≥ block.nHeight ∨ lockPair.2 ≥ block.pprevMTP
    · simp [h]
    · simp [h]

/-- Witness for C2 at a concrete block and lock pair. -/
theorem evaluateSequenceLocks_strict_witness :
    (({ nHeight := 5, hasPrev := true, ancestorMTP := fun _ => 0,
        pprevMTP := 100 } : CBlockIndexSL).hasPrev = true) ∧
    (EvaluateSequenceLocks
        { nHeight := 5, hasPrev := true, ancestorMTP := fun _ => 0,
          pprevMTP := 100 } (3, 50) = some true ↔
      (3 : Int) < 5 ∧ (50 : Int) < 100) := by
  refine ⟨rfl, ?_⟩
  exact (evaluateSequenceLocks_strict
    { nHeight := 5, hasPrev := true, ancestorMTP := fun _ => 0,
      pprevMTP := 100 } (3, 50) ⟨1, [], [], 0⟩ 0 [] rfl).1

/-! ### Block index and cumulative chain work (`AddToBlockIndex`) -/

/-- The header fields consulted by `AddToBlockIndex`; the block hash
(`GetHash()`) is abstracted as a stored identifier. -/
structure CBlockHeader where
  hash : Nat
  hashPrevBlock : Nat
  nTime : Nat
  nBits : Nat
deriving DecidableEq, Repr

/-- An in-memory block-index node: header, parent pointer, height,
cumulative chain work (an `arith_uint256`, held as a `Nat < 2^256`) and
the running maximum timestamp.  Bookkeeping fields not touched by the
chain-work computation (sequence id, validity level, file positions) are
omitted. -/
inductive BlockNode : Type where
  | node (header : CBlockHeader) (pprev : Option BlockNode) (nHeight : Int)
      (nChainWork : Nat) (nTimeMax : Nat) : BlockNode
deriving Repr

def BlockNode.header : BlockNode → CBlockHeader
  | .node h _ _ _ _ => h

def BlockNode.pprev : BlockNode → Option BlockNode
  | .node _ p _ _ _ => p

def BlockNode.nHeight : BlockNode → Int
  | .node _ _ h _ _ => h

def BlockNode.nChainWork : BlockNode → Nat
  | .node _ _ _ w _ => w

def BlockNode.nTimeMax : BlockNode → Nat
  | .node _ _ _ _ t => t

/-- Lookup in the block-index map (`mapBlockIndex.find(hash)`), modelled
as an association list with unique hash keys. -/
def lookupNode : List (Nat × BlockNode) → Nat → Option BlockNode
  | [], _ => none
  | (h, n) :: rest, k => if h = k then some n else lookupNode rest k

/-- The block-index map state mutated by `AddToBlockIndex`.  The dirty set
and best-header pointer it also updates are not involved in the chain-work
invariant and are omitted. -/
structure BlockIndexState where
  mapBlockIndex : List (Nat × BlockNode)

/-- `AddToBlockIndex` (`src/validation.cpp`): return the existing node on a
duplicate hash; otherwise create a node whose parent is looked up by
`hashPrevBlock`, with height parent+1 (0 for a parentless node, the
`CBlockIndex` default), running max time, and chain work
`(parent work, else 0) + GetBlockProof(node)` in 256-bit wrapping
arithmetic.  `GetBlockProof` (chain header, not under `src/`) depends only
on the header's `nBits` and is supplied as the function `proofOf`. -/
def AddToBlockIndex (proofOf : Nat → Nat) (st : BlockIndexState)
    (block : CBlockHeader) : BlockNode × BlockIndexState :=
  match lookupNode st.mapBlockIndex block.hash with
  | some n => (n, st)
  | none =>
    let pprev := lookupNode st.mapBlockIndex block.hashPrevBlock
    let nHeight : Int := match pprev with | some p => p.nHeight + 1 | none => 0
    let nTimeMax : Nat :=
      match pprev with | some p => max p.nTimeMax block.nTime | none => block.nTime
    let prevWork : Nat := match pprev with | some p => p.nChainWork | none => 0
    let nNew := BlockNode.node block pprev nHeight
      ((prevWork + proofOf block.nBits) % 2 ^ 256) nTimeMax
    (nNew, ⟨(block.hash, nNew) :: st.mapBlockIndex⟩)

/-- The per-node chain-work equation, checked recursively along the parent
chain: each node's work is its parent's work (0 at a root) plus its own
proof, in 256-bit wrapping arithmetic. -/
def goodWork (proofOf : Nat → Nat) : BlockNode → Bool
  | .node hdr none _ w _ =>
      decide (w = proofOf hdr.nBits % 2 ^ 256)
  | .node hdr (some p) _ w _ =>
      decide (w = (p.nChainWork + proofOf hdr.nBits) % 2 ^ 256) &&
        goodWork proofOf p

/-- The sum of per-block proofs along the parent path ending at a node,
in 256-bit wrapping arithmetic. -/
def pathWork (proofOf : Nat → Nat) : BlockNode → Nat
  | .node hdr none _ _ _ => proofOf hdr.nBits % 2 ^ 256
  | .node hdr (some p) _ _ _ =>
      (pathWork proofOf p + proofOf hdr.nBits) % 2 ^ 256

theorem goodWork_pathWork (proofOf : Nat → Nat) :
    ∀ n : BlockNode, goodWork proofOf n = true →
      n.nChainWork = pathWork proofOf n
  | .node hdr none h w t => by
      intro hg
      simp only [goodWork, decide_eq_true_eq] at hg
      simpa [pathWork, BlockNode.nChainWork] using hg
  | .node hdr (some p) h w t => by
      intro hg
      simp only [goodWork, Bool.and_eq_true, decide_eq_true_eq] at hg
      have ih := goodWork_pathWork proofOf p hg.2
      simp only [pathWork, BlockNode.nChainWork]
      rw [hg.1, ih]

theorem lookupNode_mem (m : List (Nat × BlockNode)) (k : Nat) (n : BlockNode)
    (h : lookupNode m k = some n) : (k, n) ∈ m := by
  induction m with
  | nil => simp [lookupNode] at h
  | cons p rest ih =>
    obtain ⟨ph, pn⟩ := p
    simp only [lookupNode] at h
    by_cases hk : ph = k
    · subst hk
      simp only [if_pos rfl] at h
      cases h
      exact List.mem_cons_self _ _
    · rw [if_neg hk] at h
      exact List.mem_cons_of_mem _ (ih h)

/-- C3: starting from a block-index map whose nodes all satisfy the
chain-work recurrence, `AddToBlockIndex` returns a node that satisfies it,
every node of the resulting map has chain work equal to the (wrapping) sum
of per-block proofs along its parent path, and inserting a header whose
hash is already present returns the existing node with the map unchanged. -/
theorem addToBlockIndex_chainwork (proofOf : Nat → Nat)
    (st : BlockIndexState) (block : CBlockHeader)
    (hst : ∀ p ∈ st.mapBlockIndex, goodWork proofOf p.2 = true) :
    goodWork proofOf (AddToBlockIndex proofOf st block).1 = true ∧
    (∀ p ∈ (AddToBlockIndex proofOf st block).2.mapBlockIndex,
      (p.2).nChainWork = pathWork proofOf p.2) ∧
    (∀ n, lookupNode st.mapBlockIndex block.hash = some n →
      AddToBlockIndex proofOf st block = (n, st)) := by
  cases hdup : lookupNode st.mapBlockIndex block.hash with
  | some n =>
    have hmem := lookupNode_mem _ _ _ hdup
    have hres : AddToBlockIndex proofOf st block = (n, st) := by
      unfold AddToBlockIndex
      rw [hdup]
    refine ⟨?_, ?_, ?_⟩
    · rw [hres]
      exact hst _ hmem
    · rw [hres]
      intro p hp
      exact goodWork_pathWork proofOf _ (hst p hp)
    · intro m hm
      cases hm
      exact hres
  | none =>
    have hnewGood : goodWork proofOf (AddToBlockIndex proofOf st block).1 = true := by
      unfold AddToBlockIndex
      rw [hdup]
      cases hpar : lookupNode st.mapBlockIndex block.hashPrevBlock with
      | some p =>
        have hpGood : goodWork proofOf p = true :=
          hst _ (lookupNode_mem _ _ _ hpar)
        simp only [goodWork, Bool.and_eq_true, decide_eq_true_eq]
        exact ⟨by trivial, hpGood⟩
      | none =>
        simp [goodWork]
    refine ⟨hnewGood, ?_, ?_⟩
    · intro p hp
      have hmap : (AddToBlockIndex proofOf st block).2.mapBlockIndex =
          (block.hash, (AddToBlockIndex proofOf st block).1) :: st.mapBlockIndex := by
        unfold AddToBlockIndex
        rw [hdup]
      rw [hmap] at hp
      rcases List.mem_cons.mp hp with heq | hmem
      · subst heq
        exact goodWork_pathWork proofOf _ hnewGood
      · exact goodWork_pathWork proofOf _ (hst _ hmem)
    · intro m hm
      cases hm

/-- Witness for C3 at a concrete empty map, header and proof function. -/
theorem addToBlockIndex_chainwork_witness :
    (∀ p ∈ (⟨[]⟩ : BlockIndexState).mapBlockIndex,
      goodWork (fun b => b) p.2 = true) ∧
    goodWork (fun b => b)
      (AddToBlockIndex (fun b => b) ⟨[]⟩ ⟨7, 0, 100, 3⟩).1 = true := by
  have hv : ∀ p ∈ (⟨[]⟩ : BlockIndexState).mapBlockIndex,
      goodWork (fun b => b) p.2 = true := by
    intro p hp
    simp at hp
  exact ⟨hv, (addToBlockIndex_chainwork (fun b => b) ⟨[]⟩ ⟨7, 0, 100, 3⟩ hv).1⟩

/-! ### Block subsidy and the coinbase-value check of `ConnectBlock` -/

/-- Modelled from the spec: one coin is 100,000,000 satoshi (`COIN`, amount
header, not under `src/`). -/
def COIN : Int := 100000000

/-- Modelled from the spec: the numeric reject code `REJECT_INVALID`
(`0x10`, validation-state header, not under `src/`). -/
def REJECT_INVALID : Nat := 16

/-- `GetBlockSubsidy` (`src/validation.cpp`): `halvings = nHeight /
interval` (C++ truncating division); zero from 64 halvings on (where the
right shift would be undefined); otherwise `50 * COIN` shifted right by
`halvings` (int64 arithmetic shift of a positive value, i.e. floor
division by `2 ^ halvings`). -/
def GetBlockSubsidy (nHeight : Int) (nSubsidyHalvingInterval : Int) : Int :=
  let halvings := Int.tdiv nHeight nSubsidyHalvingInterval
  if 64 ≤ halvings then 0
  else (50 * COIN) / 2 ^ halvings.toNat

/-- The fee accumulation of `ConnectBlock`'s transaction loop: for each
non-coinbase transaction, `nFees += view.GetValueIn(tx) -
tx.GetValueOut()`.  Each transaction is paired with the input value the
coins view reports for it at its position in the block. -/
def connectLoopFees : List (CTransaction × Int) → Int → Int
  | [], acc => acc
  | (tx, valueIn) :: rest, acc =>
      connectLoopFees rest
        (if tx.IsCoinBase then acc else acc + (valueIn - tx.GetValueOut))

/-- The sum of fees of the non-coinbase transactions, written as the spec
states it. -/
def specBlockFees (txs : List (CTransaction × Int)) : Int :=
  ((txs.filter (fun p => !p.1.IsCoinBase)).map
    (fun p => p.2 - p.1.GetValueOut)).sum

/-- The rejection record produced by `state.DoS(100, ..., REJECT_INVALID,
"bad-cb-amount")`. -/
structure RejectionM where
  dos : Nat
  code : Nat
  reason : String
deriving DecidableEq, Repr

/-- The post-loop coinbase-value check of `ConnectBlock`
(`src/validation.cpp`): `blockReward = nFees + GetBlockSubsidy(height)`;
reject `bad-cb-amount` when `block.vtx[0]->GetValueOut() > blockReward`. -/
def connectBlockCoinbaseCheck (coinbase : CTransaction) (nFees : Int)
    (nHeight : Int) (nSubsidyHalvingInterval : Int) : Option RejectionM :=
  let blockReward := nFees + GetBlockSubsidy nHeight nSubsidyHalvingInterval
  if coinbase.GetValueOut > blockReward then
    some ⟨100, REJECT_INVALID, "bad-cb-amount"⟩
  else none

theorem connectLoopFees_eq_spec (txs : List (CTransaction × Int)) (acc : Int) :
    connectLoopFees txs acc = acc + specBlockFees txs := by
  induction txs generalizing acc with
  | nil => simp [connectLoopFees, specBlockFees]
  | cons p rest ih =>
    obtain ⟨tx, valueIn⟩ := p
    cases hcb : tx.IsCoinBase with
    | true => simp [connectLoopFees, specBlockFees, hcb, ih]
    | false =>
      simp [connectLoopFees, specBlockFees, hcb, ih]
      ring

/-- C4: after the transaction loop, `ConnectBlock` rejects the block with
`REJECT_INVALID` / reason `bad-cb-amount` / DoS 100 exactly when the
coinbase's total output value exceeds the block subsidy at the node's
height plus the sum of fees of the non-coinbase transactions, and the
check passes exactly when it pays at most that bound. -/
theorem connectBlock_coinbase_amount (txs : List (CTransaction × Int))
    (coinbase : CTransaction) (nHeight nInterval : Int) :
    connectLoopFees txs 0 = specBlockFees txs ∧
    (connectBlockCoinbaseCheck coinbase (connectLoopFees txs 0) nHeight nInterval =
        some ⟨100, REJECT_INVALID, "bad-cb-amount"⟩ ↔
      coinbase.GetValueOut >
        GetBlockSubsidy nHeight nInterval + specBlockFees txs) ∧
    (connectBlockCoinbaseCheck coinbase (connectLoopFees txs 0) nHeight nInterval =
        none ↔
      coinbase.GetValueOut ≤
        GetBlockSubsidy nHeight nInterval + specBlockFees txs) := by
  have hfees : connectLoopFees txs 0 = specBlockFees txs := by
    simpa using connectLoopFees_eq_spec txs 0
  refine ⟨hfees, ?_, ?_⟩
  · rw [hfees]
    unfold connectBlockCoinbaseCheck
    by_cases h : coinbase.GetValueOut >
        specBlockFees txs + GetBlockSubsidy nHeight nInterval
    · rw [if_pos h]
      simp only [eq_self_iff_true, true_iff]
      omega
    · rw [if_neg h]
      constructor
      · intro hc
        cases hc
      · intro hgt
        exfalso
        omega
  · rw [hfees]
    unfold connectBlockCoinbaseCheck
    by_cases h : coinbase.GetValueOut >
        specBlockFees txs + GetBlockSubsidy nHeight nInterval
    · rw [if_pos h]
      constructor
      · intro hc
        cases hc
      · intro hle
        exfalso
        omega
    · rw [if_neg h]
      simp only [eq_self_iff_true, true_iff]
      omega

/-! ### Coins view, `UndoCoinSpend` and `ApplyBlockUndo` -/

/-- A single unspent output: the created `CTxOut`, the height of the block
that created it, and the is-coinbase flag.  Height `0` is the sentinel for
undo records from older versions that lack the height/coinbase metadata. -/
structure Coin where
  txOut : CTxOut
  height : Nat
  coinbase : Bool
deriving DecidableEq, Repr

/-- A coins-view cache: the outpoint-to-coin map (absence of an entry
models a spent/missing coin) and the best-block hash. -/
structure CCoinsViewCacheM where
  coins : List (COutPoint × Coin)
  bestBlock : Nat
deriving DecidableEq, Repr

def lookupCoin (view : CCoinsViewCacheM) (out : COutPoint) : Option Coin :=
  (view.coins.find? (fun p => p.1 == out)).map Prod.snd

/-- `CCoinsViewCache::HaveCoin`. -/
def haveCoin (view : CCoinsViewCacheM) (out : COutPoint) : Bool :=
  (lookupCoin view out).isSome

def eraseCoin (view : CCoinsViewCacheM) (out : COutPoint) : CCoinsViewCacheM :=
  { view with coins := view.coins.filter (fun p => !(p.1 == out)) }

/-- `CCoinsViewCache::SpendCoin`: remove the coin and hand it back when
present. -/
def spendCoin (view : CCoinsViewCacheM) (out : COutPoint) :
    Option Coin × CCoinsViewCacheM :=
  match lookupCoin view out with
  | some c => (some c, eraseCoin view out)
  | none => (none, view)

/-- `CCoinsViewCache::AddCoin`: store the coin under the outpoint.  (The
overwrite assertion of the coins layer, which lives outside `src/`, is not
modelled; `UndoCoinSpend` separately detects the overwrite and reports
UNCLEAN.) -/
def addCoin (view : CCoinsViewCacheM) (out : COutPoint) (c : Coin) :
    CCoinsViewCacheM :=
  { eraseCoin view out with coins := (out, c) :: (eraseCoin view out).coins }

def setBestBlock (view : CCoinsViewCacheM) (h : Nat) : CCoinsViewCacheM :=
  { view with bestBlock := h }

/-- Modelled from the spec: the bound on outputs per transaction used by
`AccessByTxid` (coins module, not under `src/`) when scanning for another
still-unspent output of the same transaction. -/
def MAX_OUTPUTS_PER_BLOCK : Nat := 111111

def accessByTxidAux (view : CCoinsViewCacheM) (txid : Nat) :
    Nat → Nat → Option Coin
  | 0, _ => none
  | Nat.succ fuel, i =>
    match lookupCoin view ⟨txid, i⟩ with
    | some c => some c
    | none => accessByTxidAux view txid fuel (i + 1)

/-- `AccessByTxid` (coins module, not under `src/`; behaviour per the spec:
find another still-unspent output of the same transaction): the first
unspent output of `txid`, scanning output indices upward. -/
def accessByTxid (view : CCoinsViewCacheM) (txid : Nat) : Option Coin :=
  accessByTxidAux view txid MAX_OUTPUTS_PER_BLOCK 0

inductive DisconnectResult where
  | OK
  | UNCLEAN
  | FAILED
deriving DecidableEq, Repr

/-- `UndoCoinSpend` (`src/validation.cpp`): restoring a spent coin.  An
already-present coin at the outpoint marks the result UNCLEAN; a height-0
undo record has its metadata recovered from another still-unspent output
of the same transaction, and if none exists the restore FAILs; otherwise
the coin is written back. -/
def UndoCoinSpend (undo : Coin) (view : CCoinsViewCacheM) (out : COutPoint) :
    DisconnectResult × CCoinsViewCacheM :=
  let fClean := !(haveCoin view out)
  if undo.height = 0 then
    match accessByTxid view out.hash with
    | none => (.FAILED, view)
    | some alternate =>
      let undo2 : Coin := ⟨undo.txOut, alternate.height, alternate.coinbase⟩
      (if fClean then .OK else .UNCLEAN, addCoin view out undo2)
  else
    (if fClean then .OK else .UNCLEAN, addCoin view out undo)

/-- The per-output deletion pass of `ApplyBlockUndo` over one transaction:
provably unspendable outputs are skipped; a missing or mismatched created
output clears the clean flag but processing continues. -/
def spendOutputsAux (txid : Nat) :
    List (Nat × CTxOut) → CCoinsViewCacheM → Bool → CCoinsViewCacheM × Bool
  | [], view, fClean => (view, fClean)
  | (o, txout) :: rest, view, fClean =>
    if txout.scriptPubKey.IsUnspendable then
      spendOutputsAux txid rest view fClean
    else
      match spendCoin view ⟨txid, o⟩ with
      | (some coin, view2) =>
          spendOutputsAux txid rest view2 (fClean && decide (txout = coin.txOut))
      | (none, view2) => spendOutputsAux txid rest view2 false

def spendOutputs (tx : CTransaction) (view : CCoinsViewCacheM) (fClean : Bool) :
    CCoinsViewCacheM × Bool :=
  spendOutputsAux tx.GetId tx.vout.enum view fClean

/-- The undo record of one transaction: the coins its inputs spent. -/
structure CTxUndo where
  vprevout : List Coin
deriving DecidableEq, Repr

/-- The undo record of one block. -/
structure CBlockUndo where
  vtxundo : List CTxUndo
deriving DecidableEq, Repr

/-- The block fields consulted by `ApplyBlockUndo`. -/
structure CBlock where
  header : CBlockHeader
  vtx : List CTransaction
deriving DecidableEq, Repr

/-- The input-restore pass over one transaction (the caller supplies the
prevout/undo pairs already reversed): a FAILED restore aborts with the
view as mutated so far; otherwise an UNCLEAN restore clears the clean
flag and processing continues. -/
def restoreInputs :
    List (COutPoint × Coin) → CCoinsViewCacheM → Bool →
      Except CCoinsViewCacheM (CCoinsViewCacheM × Bool)
  | [], view, fClean => .ok (view, fClean)
  | (out, undo) :: rest, view, fClean =>
    match UndoCoinSpend undo view out with
    | (.FAILED, _) => .error view
    | (res, view2) =>
        restoreInputs rest view2 (fClean && decide (res ≠ .UNCLEAN))

/-- Undo one transaction of the block: first delete its created outputs,
then (for non-coinbase, which carries an undo record) check the per-input
undo count and restore the spent coins in reverse input order. -/
def applyTx (tx : CTransaction) (undoOpt : Option CTxUndo)
    (view : CCoinsViewCacheM) (fClean : Bool) :
    Except CCoinsViewCacheM (CCoinsViewCacheM × Bool) :=
  let sp := spendOutputs tx view fClean
  match undoOpt with
  | none => .ok sp
  | some txundo =>
    if txundo.vprevout.length ≠ tx.vin.length then .error sp.1
    else
      restoreInputs ((tx.vin.map CTxIn.prevout).zip txundo.vprevout).reverse
        sp.1 sp.2

/-- Undo the transactions in the given (already reversed) order,
propagating the first FAILED. -/
def applyTxsRev :
    List (CTransaction × Option CTxUndo) → CCoinsViewCacheM → Bool →
      Except CCoinsViewCacheM (CCoinsViewCacheM × Bool)
  | [], view, fClean => .ok (view, fClean)
  | (tx, u) :: rest, view, fClean =>
    match applyTx tx u view fClean with
    | .error v => .error v
    | .ok pr => applyTxsRev rest pr.1 pr.2

/-- `ApplyBlockUndo` (`src/validation.cpp`): FAILED on a block/undo
transaction-count mismatch; otherwise undo the transactions in reverse
order (the coinbase, index 0, carries no undo record and only has its
outputs deleted), then point the view's best block at the block's parent
hash and return CLEAN or UNCLEAN according to the accumulated flag. -/
def ApplyBlockUndo (blockUndo : CBlockUndo) (block : CBlock)
    (view : CCoinsViewCacheM) : DisconnectResult × CCoinsViewCacheM :=
  if blockUndo.vtxundo.length + 1 ≠ block.vtx.length then (.FAILED, view)
  else
    match applyTxsRev
        (block.vtx.zip ((none : Option CTxUndo) :: blockUndo.vtxundo.map some)).reverse
        view true with
    | .error v => (.FAILED, v)
    | .ok pr =>
      (if pr.2 then .OK else .UNCLEAN,
       setBestBlock pr.1 block.header.hashPrevBlock)

/-- C5: `ApplyBlockUndo` fails immediately (view untouched) on a
transaction/undo count mismatch; whenever it does not fail, the result is
CLEAN or UNCLEAN and the view's best block has been set to the block's
parent hash; and a single coin restore (`UndoCoinSpend`) fails exactly
when the undo record lacks metadata (height 0) and no still-unspent
output of the same transaction exists to recover it from — an
already-present (mismatched) output at the outpoint merely downgrades the
restore to UNCLEAN. -/
theorem applyBlockUndo_reverse_undo (blockUndo : CBlockUndo) (block : CBlock)
    (view : CCoinsViewCacheM) :
    (blockUndo.vtxundo.length + 1 ≠ block.vtx.length →
      ApplyBlockUndo blockUndo block view = (.FAILED, view)) ∧
    (∀ res view2, ApplyBlockUndo blockUndo block view = (res, view2) →
      res ≠ .FAILED →
        view2.bestBlock = block.header.hashPrevBlock ∧
        (res = .OK ∨ res = .UNCLEAN)) ∧
    (∀ undo v out,
      ((UndoCoinSpend undo v out).1 = .FAILED ↔
        undo.height = 0 ∧ accessByTxid v out.hash = none) ∧
      ((UndoCoinSpend undo v out).1 = .FAILED →
        (UndoCoinSpend undo v out).2 = v) ∧
      ((UndoCoinSpend undo v out).1 = .UNCLEAN ↔
        (UndoCoinSpend undo v out).1 ≠ .FAILED ∧ haveCoin v out = true)) := by
  refine ⟨?_, ?_, ?_⟩
  · intro hne
    unfold ApplyBlockUndo
    rw [if_pos hne]
  · intro res view2 hres hnf
    unfold ApplyBlockUndo at hres
    by_cases hlen : blockUndo.vtxundo.length + 1 ≠ block.vtx.length
    · rw [if_pos hlen] at hres
      injection hres with h1 h2
      exact absurd h1.symm hnf
    · rw [if_neg hlen] at hres
      cases hrun : applyTxsRev
          (block.vtx.zip
            ((none : Option CTxUndo) :: blockUndo.vtxundo.map some)).reverse
          view true with
      | error v =>
        rw [hrun] at hres
        injection hres with h1 h2
        exact absurd h1.symm hnf
      | ok pr =>
        rw [hrun] at hres
        injection hres with h1 h2
        subst h1
        subst h2
        refine ⟨rfl, ?_⟩
        cases pr.2
        · right
          rfl
        · left
          rfl
  · intro undo v out
    unfold UndoCoinSpend
    by_cases hh : undo.height = 0
    · rw [if_pos hh]
      cases hacc : accessByTxid v out.hash with
      | none =>
        refine ⟨⟨fun _ => ⟨hh, rfl⟩, fun _ => rfl⟩, fun _ => rfl, ?_⟩
        constructor
        · intro hu
          cases hu
        · rintro ⟨hne, _⟩
          exact absurd rfl hne
      | some alt =>
        cases hhave : haveCoin v out with
        | true =>
          refine ⟨?_, ?_, ?_⟩
          · simp [hhave]
          · simp [hhave]
          · simp [hhave]
        | false =>
          refine ⟨?_, ?_, ?_⟩
          · simp [hhave]
          · simp [hhave]
          · simp [hhave]
    · rw [if_neg hh]
      cases hhave : haveCoin v out with
      | true =>
        refine ⟨?_, ?_, ?_⟩
        · simp [hhave, hh]
        · simp [hhave]
        · simp [hhave]
      | false =>
        refine ⟨?_, ?_, ?_⟩
        · simp [hhave, hh]
        · simp [hhave]
        · simp [hhave]

/-- Witness for C5: a concrete count-mismatched pair fails with the view
untouched, and a concrete metadata-less restore with no alternate output
fails. -/
theorem applyBlockUndo_reverse_undo_witness :
    ((⟨[]⟩ : CBlockUndo).vtxundo.length + 1 ≠
        (⟨⟨1, 2, 3, 4⟩, []⟩ : CBlock).vtx.length ∧
      ApplyBlockUndo ⟨[]⟩ ⟨⟨1, 2, 3, 4⟩, []⟩ ⟨[], 9⟩ = (.FAILED, ⟨[], 9⟩)) ∧
    ((UndoCoinSpend ⟨⟨5, ⟨0, false⟩⟩, 0, false⟩ ⟨[], 9⟩ ⟨77, 0⟩).1 = .FAILED ↔
      (⟨⟨5, ⟨0, false⟩⟩, 0, false⟩ : Coin).height = 0 ∧
        accessByTxid ⟨[], 9⟩ 77 = none) := by
  constructor
  · refine ⟨by decide, ?_⟩
    exact (applyBlockUndo_reverse_undo ⟨[]⟩ ⟨⟨1, 2, 3, 4⟩, []⟩ ⟨[], 9⟩).1
      (by decide)
  · exact ((applyBlockUndo_reverse_undo ⟨[]⟩ ⟨⟨1, 2, 3, 4⟩, []⟩ ⟨[], 9⟩).2.2
      ⟨⟨5, ⟨0, false⟩⟩, 0, false⟩ ⟨[], 9⟩ ⟨77, 0⟩).1

/-! ### Mempool admission: the rejection prefix of `AcceptToMemoryPoolWorker` -/

/-- Modelled from the spec: the numeric reject code `REJECT_CONFLICT`
(`0x102`, validation-state header, not under `src/`). -/
def REJECT_CONFLICT : Nat := 258

/-- Modelled from the spec: the numeric reject code `REJECT_ALREADY_KNOWN`
(`0x101`, validation-state header, not under `src/`). -/
def REJECT_ALREADY_KNOWN : Nat := 257

/-- Modelled from the spec: the numeric reject code `REJECT_DUPLICATE`
(`0x12`, validation-state header, not under `src/`). -/
def REJECT_DUPLICATE : Nat := 18

/-- The mempool facets read by the admission prefix: the set of
transaction ids in the pool, and `mapNextTx`, mapping each outpoint spent
by a pool transaction to that spender's id. -/
structure CTxMemPoolM where
  txids : List Nat
  mapNextTx : List (COutPoint × Nat)
deriving DecidableEq, Repr

def lookupNextTx (pool : CTxMemPoolM) (out : COutPoint) : Option Nat :=
  (pool.mapNextTx.find? (fun p => p.1 == out)).map Prod.snd

/-- The outcome of the modelled prefix of `AcceptToMemoryPoolWorker`
(steps: context-free check, standardness, contextual-for-next-block,
already-in-mempool, mempool conflict, already-known outputs, missing
inputs).  `earlyReject n` stands for a failure of the n-th early check
(whose own reject details are computed by callees outside this model);
`invalid` is `state.Invalid(false, code, reason)` (return false, state
marked invalid); `missingInputs` is the return-false path that sets
`*pfMissingInputs` without touching the state; `proceed` means control
reaches the fee/script stages, not modelled here. -/
inductive AdmitOutcome where
  | earlyReject (stage : Nat)
  | invalid (code : Nat) (reason : String)
  | missingInputs
  | proceed
deriving DecidableEq, Repr

/-- The C++ return value of the worker on this outcome (`proceed` stands
for the not-modelled continuation, which is the only path that can still
return true). -/
def AdmitOutcome.returnsFalse : AdmitOutcome → Bool
  | .proceed => false
  | _ => true

/-- Whether the validation state has been marked invalid on this outcome
(`state.IsInvalid()`): `state.Invalid`/`state.DoS` paths mark it, the
missing-inputs path deliberately does not. -/
def AdmitOutcome.stateInvalid : AdmitOutcome → Bool
  | .earlyReject _ => true
  | .invalid _ _ => true
  | _ => false

/-- Whether `*pfMissingInputs` has been set to true on this outcome. -/
def AdmitOutcome.missingFlag : AdmitOutcome → Bool
  | .missingInputs => true
  | _ => false

/-- The rejection prefix of `AcceptToMemoryPoolWorker`
(`src/validation.cpp`), as a function of the transaction, the pool, the
mempool-overlayed coins view (`viewHave`, the `HaveCoin` of the temporary
view backed by `CCoinsViewMemPool`), and oracles for the three early
checks that are computed by callees outside this translation unit
(`CheckRegularTransaction`; `fRequireStandard && IsStandardTx`;
`ContextualCheckTransactionForCurrentBlock`).  The pool is returned
unchanged on every modelled path: the prefix only reads it. -/
def atmpPrefix (checkRegularOk standardOk contextualOk : Bool)
    (viewHave : COutPoint → Bool) (pool : CTxMemPoolM) (tx : CTransaction) :
    AdmitOutcome × CTxMemPoolM :=
  if !checkRegularOk then (.earlyReject 1, pool)
  else if !standardOk then (.earlyReject 2, pool)
  else if !contextualOk then (.earlyReject 3, pool)
  else if tx.GetId ∈ pool.txids then
    (.invalid REJECT_ALREADY_KNOWN "txn-already-in-mempool", pool)
  else if tx.vin.any (fun txin => (lookupNextTx pool txin.prevout).isSome) then
    (.invalid REJECT_CONFLICT "txn-mempool-conflict", pool)
  else if (List.range tx.vout.length).any
      (fun o => viewHave ⟨tx.GetId, o⟩) then
    (.invalid REJECT_ALREADY_KNOWN "txn-already-known", pool)
  else if tx.vin.any (fun txin => !(viewHave txin.prevout)) then
    (.missingInputs, pool)
  else (.proceed, pool)

/-- C6: when the candidate transaction passes the earlier checks and is
not itself in the mempool, but some input outpoint is already spent by a
mempool transaction, admission rejects it with code `REJECT_CONFLICT` and
reason `txn-mempool-conflict`, and the pool is returned unchanged — no
replacement takes place. -/
theorem atmp_mempool_conflict (checkRegularOk standardOk contextualOk : Bool)
    (viewHave : COutPoint → Bool) (pool : CTxMemPoolM) (tx : CTransaction)
    (h1 : checkRegularOk = true) (h2 : standardOk = true)
    (h3 : contextualOk = true) (h4 : tx.GetId ∉ pool.txids)
    (h5 : ∃ txin ∈ tx.vin, (lookupNextTx pool txin.prevout).isSome = true) :
    atmpPrefix checkRegularOk standardOk contextualOk viewHave pool tx =
      (.invalid REJECT_CONFLICT "txn-mempool-conflict", pool) := by
  subst h1 h2 h3
  have hany : tx.vin.any
      (fun txin => (lookupNextTx pool txin.prevout).isSome) = true :=
    List.any_eq_true.mpr h5
  unfold atmpPrefix
  simp only [Bool.not_true, Bool.false_eq_true, if_false]
  rw [if_neg h4, if_pos hany]

/-- Witness for C6 at a concrete transaction and pool. -/
theorem atmp_mempool_conflict_witness :
    atmpPrefix true true true (fun _ => false)
        ⟨[5], [(⟨3, 0⟩, 5)]⟩ ⟨1, [⟨⟨3, 0⟩, 0xffffffff⟩], [], 42⟩ =
      (.invalid REJECT_CONFLICT "txn-mempool-conflict",
       ⟨[5], [(⟨3, 0⟩, 5)]⟩) := by
  exact atmp_mempool_conflict true true true (fun _ => false)
    ⟨[5], [(⟨3, 0⟩, 5)]⟩ ⟨1, [⟨⟨3, 0⟩, 0xffffffff⟩], [], 42⟩
    rfl rfl rfl (by decide)
    ⟨⟨⟨3, 0⟩, 0xffffffff⟩, by decide, by decide⟩

/-- C7: when the candidate transaction passes the earlier checks, is not
in the mempool, has no mempool conflict and none of its outputs is
already known to the view, but some input resolves neither in the coins
view nor in the mempool overlay, the worker takes the missing-inputs
path: it returns false, sets `*pfMissingInputs`, and leaves the
validation state not marked invalid. -/
theorem atmp_missing_inputs (checkRegularOk standardOk contextualOk : Bool)
    (viewHave : COutPoint → Bool) (pool : CTxMemPoolM) (tx : CTransaction)
    (h1 : checkRegularOk = true) (h2 : standardOk = true)
    (h3 : contextualOk = true) (h4 : tx.GetId ∉ pool.txids)
    (h5 : ∀ txin ∈ tx.vin, (lookupNextTx pool txin.prevout).isSome = false)
    (h6 : ∀ o < tx.vout.length, viewHave ⟨tx.GetId, o⟩ = false)
    (h7 : ∃ txin ∈ tx.vin, viewHave txin.prevout = false) :
    atmpPrefix checkRegularOk standardOk contextualOk viewHave pool tx =
      (.missingInputs, pool) ∧
    AdmitOutcome.missingInputs.returnsFalse = true ∧
    AdmitOutcome.missingInputs.stateInvalid = false ∧
    AdmitOutcome.missingInputs.missingFlag = true := by
  subst h1 h2 h3
  refine ⟨?_, rfl, rfl, rfl⟩
  have hconf : tx.vin.any
      (fun txin => (lookupNextTx pool txin.prevout).isSome) = false := by
    rw [List.any_eq_false]
    intro txin htxin
    simp [h5 txin htxin]
  have hknown : (List.range tx.vout.length).any
      (fun o => viewHave ⟨tx.GetId, o⟩) = false := by
    rw [List.any_eq_false]
    intro o ho
    simp [h6 o (List.mem_range.mp ho)]
  have hmiss : tx.vin.any (fun txin => !(viewHave txin.prevout)) = true := by
    rw [List.any_eq_true]
    obtain ⟨txin, htxin, hv⟩ := h7
    exact ⟨txin, htxin, by simp [hv]⟩
  unfold atmpPrefix
  simp only [Bool.not_true, Bool.false_eq_true, if_false]
  rw [if_neg h4, hconf, hknown]
  simp only [Bool.false_eq_true, if_false]
  rw [hmiss]
  simp

/-- Witness for C7 at a concrete transaction, pool and view. -/
theorem atmp_missing_inputs_witness :
    atmpPrefix true true true (fun _ => false)
        ⟨[], []⟩ ⟨1, [⟨⟨3, 0⟩, 0xffffffff⟩], [⟨7, ⟨0, false⟩⟩], 42⟩ =
      (.missingInputs, ⟨[], []⟩) ∧
    AdmitOutcome.missingInputs.returnsFalse = true ∧
    AdmitOutcome.missingInputs.stateInvalid = false ∧
    AdmitOutcome.missingInputs.missingFlag = true := by
  exact atmp_missing_inputs true true true (fun _ => false)
    ⟨[], []⟩ ⟨1, [⟨⟨3, 0⟩, 0xffffffff⟩], [⟨7, ⟨0, false⟩⟩], 42⟩
    rfl rfl rfl (by decide)
    (by intro txin htxin; rfl)
    (by intro o ho; rfl)
    ⟨⟨⟨3, 0⟩, 0xffffffff⟩, by decide, rfl⟩

/-! ### `InvalidBlockFound` and the corruption-possible gate -/

/-- Insertion into a set of node ids (`std::set::insert`). -/
def insertSet (x : Nat) (s : List Nat) : List Nat :=
  if x ∈ s then s else x :: s

/-- Erasure from a set of node ids (`std::set::erase`). -/
def eraseSet (x : Nat) (s : List Nat) : List Nat :=
  s.filter (fun y => !(y == x))

/-- The validation-state facet read by `InvalidBlockFound`:
the corruption-possible bit. -/
structure CValidationStateM where
  corruptionPossible : Bool
deriving DecidableEq, Repr

/-- The status flags of a block-index node that `InvalidBlockFound`
touches, as named bits. -/
structure BlockStatusM where
  failedValid : Bool
  failedChild : Bool
deriving DecidableEq, Repr

/-- The global state mutated by `InvalidBlockFound` for one node: its
status word, and the node's membership in `setDirtyBlockIndex` and
`setBlockIndexCandidates` (sets of node ids). -/
structure IBFState where
  status : BlockStatusM
  dirty : List Nat
  candidates : List Nat
deriving DecidableEq, Repr

/-- `InvalidBlockFound` (`src/validation.cpp`): unless the state carries
the corruption-possible bit, set `BLOCK_FAILED_VALID` on the node, insert
it into the dirty set and erase it from the candidate set.  The source
text contains a lexical corruption at the flag name; per the spec's design
note it is read as `BLOCK_FAILED_VALID`.  The trailing `InvalidChainFound`
call (logging, warning flags, best-invalid pointer) is omitted. -/
def InvalidBlockFound (nodeId : Nat) (st : IBFState)
    (state : CValidationStateM) : IBFState :=
  if !state.corruptionPossible then
    { status := { st.status with failedValid := true },
      dirty := insertSet nodeId st.dirty,
      candidates := eraseSet nodeId st.candidates }
  else st

theorem mem_insertSet_self (x : Nat) (s : List Nat) : x ∈ insertSet x s := by
  unfold insertSet
  split
  · assumption
  · exact List.mem_cons_self _ _

theorem not_mem_eraseSet_self (x : Nat) (s : List Nat) : x ∉ eraseSet x s := by
  intro hx
  rw [eraseSet, List.mem_filter] at hx
  simp at hx

/-- C8: when the state does not carry the corruption-possible bit,
`InvalidBlockFound` marks the node `FAILED_VALID`, puts it in the dirty
set and removes it from the candidate set; when corruption is possible,
none of these effects happen — the state is returned unchanged, so the
block is not FAILED-marked and can be retried. -/
theorem invalidBlockFound_corruption_gate (nodeId : Nat) (st : IBFState)
    (state : CValidationStateM) :
    (state.corruptionPossible = false →
      (InvalidBlockFound nodeId st state).status.failedValid = true ∧
      nodeId ∈ (InvalidBlockFound nodeId st state).dirty ∧
      nodeId ∉ (InvalidBlockFound nodeId st state).candidates ∧
      (InvalidBlockFound nodeId st state).status.failedChild =
        st.status.failedChild) ∧
    (state.corruptionPossible = true →
      InvalidBlockFound nodeId st state = st) := by
  constructor
  · intro hc
    unfold InvalidBlockFound
    rw [hc]
    simp only [Bool.not_false, if_true]
    exact ⟨by trivial, mem_insertSet_self _ _, not_mem_eraseSet_self _ _,
      by trivial⟩
  · intro hc
    unfold InvalidBlockFound
    rw [hc]
    simp

/-- Witness for C8 at a concrete node and state, in both gate positions. -/
theorem invalidBlockFound_corruption_gate_witness :
    ((InvalidBlockFound 4 ⟨⟨false, false⟩, [2], [4, 6]⟩ ⟨false⟩).status.failedValid
        = true ∧
      (4 : Nat) ∈ (InvalidBlockFound 4 ⟨⟨false, false⟩, [2], [4, 6]⟩ ⟨false⟩).dirty ∧
      (4 : Nat) ∉
        (InvalidBlockFound 4 ⟨⟨false, false⟩, [2], [4, 6]⟩ ⟨false⟩).candidates ∧
      (InvalidBlockFound 4 ⟨⟨false, false⟩, [2], [4, 6]⟩ ⟨false⟩).status.failedChild
        = (⟨⟨false, false⟩, [2], [4, 6]⟩ : IBFState).status.failedChild) ∧
    InvalidBlockFound 4 ⟨⟨false, false⟩, [2], [4, 6]⟩ ⟨true⟩ =
      ⟨⟨false, false⟩, [2], [4, 6]⟩ := by
  constructor
  · exact (invalidBlockFound_corruption_gate 4
      ⟨⟨false, false⟩, [2], [4, 6]⟩ ⟨false⟩).1 rfl
  · exact (invalidBlockFound_corruption_gate 4
      ⟨⟨false, false⟩, [2], [4, 6]⟩ ⟨true⟩).2 rfl

/-! ### `PreciousBlock` -/

/-- `std::numeric_limits<int32_t>::min()`. -/
def INT32_MIN : Int := -(2 ^ 31)

/-- A candidate-set entry as seen by `CBlockIndexWorkComparator`: chain
work, sequence id, and the node's identity, which also stands in for the
comparator's pointer-address tie-break (C++ pointer order is an arbitrary
but fixed total order on nodes, modelled by the id). -/
structure CandEntry where
  id : Nat
  nChainWork : Nat
  nSequenceId : Int
deriving DecidableEq, Repr

/-- `CBlockIndexWorkComparator` (`src/validation.cpp`): `pa` is ordered
strictly before (worse than) `pb` — first by less total work, then by
larger (later / less precious) sequence id, then by larger address. -/
def blockIndexWorkBefore (pa pb : CandEntry) : Bool :=
  if pb.nChainWork < pa.nChainWork then false
  else if pa.nChainWork < pb.nChainWork then true
  else if pa.nSequenceId < pb.nSequenceId then false
  else if pb.nSequenceId < pa.nSequenceId then true
  else if pa.id < pb.id then false
  else if pb.id < pa.id then true
  else false

/-- `setBlockIndexCandidates.erase(pindex)`: drop the node's entry. -/
def eraseCand (i : Nat) (s : List CandEntry) : List CandEntry :=
  s.filter (fun c => !(c.id == i))

/-- `setBlockIndexCandidates.insert(pindex)`: no-op when the node is
already present. -/
def insertCand (e : CandEntry) (s : List CandEntry) : List CandEntry :=
  if s.any (fun c => c.id == e.id) then s else e :: s

/-- `PruneBlockIndexCandidates` (`src/validation.cpp`): erase every
candidate ordered strictly below the current tip by the work comparator.
(Its trailing non-emptiness assertion is a global invariant outside this
model.) -/
def PruneBlockIndexCandidates (tip : CandEntry) (s : List CandEntry) :
    List CandEntry :=
  s.filter (fun c => !(blockIndexWorkBefore c tip))

/-- The globals read and written by `PreciousBlock`: the active tip (its
work, sequence id and identity, as read through `chainActive.Tip()`), the
precious baseline `nLastPreciousChainwork`, the decreasing counter
`nBlockReverseSequenceId`, and the candidate set. -/
structure PreciousGlobals where
  tip : CandEntry
  nLastPreciousChainwork : Nat
  nBlockReverseSequenceId : Int
  candidates : List CandEntry
deriving DecidableEq, Repr

/-- The block-index-node facets touched by `PreciousBlock`: identity,
chain work, sequence id, `IsValid(BLOCK_VALID_TRANSACTIONS)` and
`nChainTx`. -/
structure PBNode where
  id : Nat
  nChainWork : Nat
  nSequenceId : Int
  validTransactions : Bool
  nChainTx : Nat
deriving DecidableEq, Repr

/-- The node's candidate-set entry (the comparator reads the node's
current fields through the stored pointer). -/
def PBNode.toCand (n : PBNode) : CandEntry :=
  ⟨n.id, n.nChainWork, n.nSequenceId⟩

/-- `PreciousBlock` (`src/validation.cpp`), the part under `cs_main`:
if the node has strictly less work than the active tip, do nothing.
Otherwise: reset the reverse counter to -1 when the tip's work exceeds
the previous baseline; record the tip's work as the baseline; erase the
node from the candidate set; assign it the counter's value as sequence
id; decrement the counter unless it is at `INT32_MIN`; when the node is
TRANSACTIONS-valid with `nChainTx` set, re-insert it and run
`PruneBlockIndexCandidates`, which erases every candidate ordered below
the current tip — comparing against the node's just-updated sequence id
when the node is itself the tip, since the comparator reads fields
through the tip pointer.  (The ensuing `ActivateBestChain` call is a
separate step, outside this model.) -/
def PreciousBlock (st : PreciousGlobals) (pindex : PBNode) :
    PreciousGlobals × PBNode :=
  if pindex.nChainWork < st.tip.nChainWork then (st, pindex)
  else
    let rseq0 : Int :=
      if st.nLastPreciousChainwork < st.tip.nChainWork then -1
      else st.nBlockReverseSequenceId
    let cand1 := eraseCand pindex.id st.candidates
    let pindex2 := { pindex with nSequenceId := rseq0 }
    let rseq1 : Int := if INT32_MIN < rseq0 then rseq0 - 1 else rseq0
    let tipNow : CandEntry :=
      if pindex.id = st.tip.id then pindex2.toCand else st.tip
    let cand2 :=
      if pindex.validTransactions && decide (pindex.nChainTx ≠ 0) then
        PruneBlockIndexCandidates tipNow (insertCand pindex2.toCand cand1)
      else cand1
    ({ st with nLastPreciousChainwork := st.tip.nChainWork,
               nBlockReverseSequenceId := rseq1,
               candidates := cand2 }, pindex2)

theorem mem_eraseCand_ne (i : Nat) (s : List CandEntry) (c : CandEntry)
    (hc : c ∈ eraseCand i s) : c.id ≠ i := by
  rw [eraseCand, List.mem_filter] at hc
  simpa using hc.2

/-- Counterexample to C9 as stated: a node with strictly less work than
the tip ("not more work" in the claim's sense) is returned with the
globals completely unchanged — no baseline is recorded, no negative
sequence id is assigned, and the node is not re-inserted into the
candidate set. -/
theorem preciousBlock_claim_counterexample :
    (⟨1, 1, 0, true, 1⟩ : PBNode).nChainWork ≤
      (⟨⟨0, 2, 0⟩, 0, -1, []⟩ : PreciousGlobals).tip.nChainWork ∧
    PreciousBlock ⟨⟨0, 2, 0⟩, 0, -1, []⟩ ⟨1, 1, 0, true, 1⟩ =
      (⟨⟨0, 2, 0⟩, 0, -1, []⟩, ⟨1, 1, 0, true, 1⟩) ∧
    (PreciousBlock ⟨⟨0, 2, 0⟩, 0, -1, []⟩ ⟨1, 1, 0, true, 1⟩).1.nLastPreciousChainwork ≠
      (⟨⟨0, 2, 0⟩, 0, -1, []⟩ : PreciousGlobals).tip.nChainWork ∧
    (PreciousBlock ⟨⟨0, 2, 0⟩, 0, -1, []⟩ ⟨1, 1, 0, true, 1⟩).2.nSequenceId = 0 ∧
    ((PreciousBlock ⟨⟨0, 2, 0⟩, 0, -1, []⟩ ⟨1, 1, 0, true, 1⟩).1.candidates.any
      (fun c => c.id == 1)) = false := by
  decide

/-- C9 (amended): `PreciousBlock` performs its updates exactly when the
node's chain work is at least the tip's.  For a node with strictly less
work it does nothing; otherwise it records the tip's chain work as the
precious baseline, assigns the node the decreasing counter's current
value as sequence id (the counter resets to -1 when the tip's work
exceeds the previous baseline, so the assigned id stays negative while
the counter is), decrements the counter (above `INT32_MIN`), and, when
the node is TRANSACTIONS-valid with `nChainTx` set, re-inserts it into
the candidate set and prunes candidates ordered below the current tip —
so the node ends up in the candidate set exactly when it is
valid-with-data and not ordered strictly below the tip by the
work/sequence-id/address comparator. -/
theorem preciousBlock_amended (st : PreciousGlobals) (pindex : PBNode) :
    (pindex.nChainWork < st.tip.nChainWork →
      PreciousBlock st pindex = (st, pindex)) ∧
    (st.tip.nChainWork ≤ pindex.nChainWork →
      (PreciousBlock st pindex).1.nLastPreciousChainwork = st.tip.nChainWork ∧
      (PreciousBlock st pindex).2.nSequenceId =
        (if st.nLastPreciousChainwork < st.tip.nChainWork then (-1 : Int)
         else st.nBlockReverseSequenceId) ∧
      (st.nBlockReverseSequenceId ≤ -1 →
        (PreciousBlock st pindex).2.nSequenceId ≤ -1) ∧
      (PreciousBlock st pindex).1.nBlockReverseSequenceId =
        (if INT32_MIN < (PreciousBlock st pindex).2.nSequenceId then
          (PreciousBlock st pindex).2.nSequenceId - 1
         else (PreciousBlock st pindex).2.nSequenceId) ∧
      ((∃ c ∈ (PreciousBlock st pindex).1.candidates, c.id = pindex.id) ↔
        pindex.validTransactions = true ∧ pindex.nChainTx ≠ 0 ∧
          blockIndexWorkBefore
            ⟨pindex.id, pindex.nChainWork,
              (PreciousBlock st pindex).2.nSequenceId⟩
            (if pindex.id = st.tip.id then
              ⟨pindex.id, pindex.nChainWork,
                (PreciousBlock st pindex).2.nSequenceId⟩
             else st.tip) = false)) := by
  constructor
  · intro hlt
    unfold PreciousBlock
    rw [if_pos hlt]
  · intro hge
    have hnlt : ¬ pindex.nChainWork < st.tip.nChainWork := by omega
    have hunf : PreciousBlock st pindex =
        ({ tip := st.tip,
           nLastPreciousChainwork := st.tip.nChainWork,
           nBlockReverseSequenceId :=
             if INT32_MIN <
                 (if st.nLastPreciousChainwork < st.tip.nChainWork then (-1 : Int)
                  else st.nBlockReverseSequenceId) then
               (if st.nLastPreciousChainwork < st.tip.nChainWork then (-1 : Int)
                else st.nBlockReverseSequenceId) - 1
             else
               (if st.nLastPreciousChainwork < st.tip.nChainWork then (-1 : Int)
                else st.nBlockReverseSequenceId),
           candidates :=
             if pindex.validTransactions && decide (pindex.nChainTx ≠ 0) then
               PruneBlockIndexCandidates
                 (if pindex.id = st.tip.id then
                   ⟨pindex.id, pindex.nChainWork,
                    (if st.nLastPreciousChainwork < st.tip.nChainWork then (-1 : Int)
                     else st.nBlockReverseSequenceId)⟩
                  else st.tip)
                 (insertCand
                   ⟨pindex.id, pindex.nChainWork,
                    (if st.nLastPreciousChainwork < st.tip.nChainWork then (-1 : Int)
                     else st.nBlockReverseSequenceId)⟩
                   (eraseCand pindex.id st.candidates))
             else eraseCand pindex.id st.candidates },
         { pindex with nSequenceId :=
             (if st.nLastPreciousChainwork < st.tip.nChainWork then (-1 : Int)
              else st.nBlockReverseSequenceId) }) := by
      unfold PreciousBlock
      rw [if_neg hnlt]
      rfl
    rw [hunf]
    refine ⟨rfl, rfl, ?_, ?_, ?_⟩
    · intro hctr
      dsimp only
      by_cases hr : st.nLastPreciousChainwork < st.tip.nChainWork
      · rw [if_pos hr]
      · rw [if_neg hr]
        exact hctr
    · rfl
    · dsimp only
      by_cases hcond :
          (pindex.validTransactions && decide (pindex.nChainTx ≠ 0)) = true
      · rw [if_pos hcond]
        rw [Bool.and_eq_true, decide_eq_true_eq] at hcond
        obtain ⟨hvt, hct⟩ := hcond
        have hkey : ∀ c ∈ eraseCand pindex.id st.candidates,
            c.id ≠ pindex.id :=
          fun c hc => mem_eraseCand_ne pindex.id st.candidates c hc
        have hany : (eraseCand pindex.id st.candidates).any
            (fun c => c.id == pindex.id) = false := by
          rw [List.any_eq_false]
          intro c hc
          simpa using hkey c hc
        have hins : insertCand
            ⟨pindex.id, pindex.nChainWork,
              (if st.nLastPreciousChainwork < st.tip.nChainWork then (-1 : Int)
               else st.nBlockReverseSequenceId)⟩
            (eraseCand pindex.id st.candidates) =
          ⟨pindex.id, pindex.nChainWork,
            (if st.nLastPreciousChainwork < st.tip.nChainWork then (-1 : Int)
             else st.nBlockReverseSequenceId)⟩ ::
            eraseCand pindex.id st.candidates := by
          unfold insertCand
          rw [hany]
          simp
        rw [hins]
        unfold PruneBlockIndexCandidates
        constructor
        · rintro ⟨c, hc, hid⟩
          rw [List.mem_filter] at hc
          rcases List.mem_cons.mp hc.1 with heq | hmem2
          · subst heq
            refine ⟨hvt, hct, ?_⟩
            simpa using hc.2
          · exact absurd hid (hkey c hmem2)
        · rintro ⟨_, _, hbef⟩
          refine ⟨⟨pindex.id, pindex.nChainWork,
            (if st.nLastPreciousChainwork < st.tip.nChainWork then (-1 : Int)
             else st.nBlockReverseSequenceId)⟩, ?_, rfl⟩
          rw [List.mem_filter]
          refine ⟨List.mem_cons_self _ _, ?_⟩
          simpa using hbef
      · rw [if_neg hcond]
        constructor
        · rintro ⟨c, hc, hid⟩
          exact absurd hid (mem_eraseCand_ne pindex.id st.candidates c hc)
        · rintro ⟨hvt, hct, _⟩
          exact absurd (by rw [hvt, decide_eq_true hct]; rfl) hcond

/-- Witness for C9 at a concrete node with work equal to the tip's and a
more-negative assigned sequence id, so it survives the prune. -/
theorem preciousBlock_amended_witness :
    (⟨⟨0, 2, 0⟩, 0, -1, [⟨0, 2, 0⟩]⟩ : PreciousGlobals).tip.nChainWork ≤
      (⟨9, 2, 0, true, 5⟩ : PBNode).nChainWork ∧
    (PreciousBlock ⟨⟨0, 2, 0⟩, 0, -1, [⟨0, 2, 0⟩]⟩
        ⟨9, 2, 0, true, 5⟩).1.nLastPreciousChainwork = 2 ∧
    (∃ c ∈ (PreciousBlock ⟨⟨0, 2, 0⟩, 0, -1, [⟨0, 2, 0⟩]⟩
        ⟨9, 2, 0, true, 5⟩).1.candidates, c.id = 9) := by
  have h := (preciousBlock_amended ⟨⟨0, 2, 0⟩, 0, -1, [⟨0, 2, 0⟩]⟩
    ⟨9, 2, 0, true, 5⟩).2 (by decide)
  refine ⟨by decide, h.1, ?_⟩
  exact h.2.2.2.2.mpr ⟨rfl, by decide, by decide⟩

/-! ### `IsInitialBlockDownload` and its latch -/

/-- The process-wide inputs one call of `IsInitialBlockDownload` reads:
the importing/reindex flags, the active tip (chain work and block time,
`none` when there is no tip), the consensus minimum chain work, the
current time and the maximum tip age. -/
structure IBDInput where
  fImporting : Bool
  fReindex : Bool
  tip : Option (Nat × Int)
  nMinimumChainWork : Nat
  now : Int
  nMaxTipAge : Int
deriving DecidableEq, Repr

/-- `IsInitialBlockDownload` (`src/validation.cpp`) as a transition on the
`latchToFalse` static: a set latch short-circuits to `false`; otherwise
importing/reindexing, a missing tip, insufficient tip chain work or a
stale tip answer `true` without touching the latch; and the fall-through
sets the latch and answers `false`.  (The pre-lock and post-lock latch
loads collapse to one read in this sequential model.)  Returns
`(answer, latch after the call)`. -/
def IsInitialBlockDownload (latch : Bool) (inp : IBDInput) : Bool × Bool :=
  if latch then (false, latch)
  else if inp.fImporting || inp.fReindex then (true, latch)
  else
    match inp.tip with
    | none => (true, latch)
    | some tip =>
      if tip.1 < inp.nMinimumChainWork then (true, latch)
      else if tip.2 < inp.now - inp.nMaxTipAge then (true, latch)
      else (false, true)

/-- The answers of a sequence of calls, threading the latch. -/
def runIBD (latch : Bool) : List IBDInput → List Bool
  | [] => []
  | inp :: rest =>
    (IsInitialBlockDownload latch inp).1 ::
      runIBD (IsInitialBlockDownload latch inp).2 rest

theorem ibd_false_sets_latch (latch : Bool) (inp : IBDInput)
    (h : (IsInitialBlockDownload latch inp).1 = false) :
    (IsInitialBlockDownload latch inp).2 = true := by
  cases latch with
  | true => rfl
  | false =>
    by_cases himp : (inp.fImporting || inp.fReindex) = true
    · simp [IsInitialBlockDownload, himp] at h
    · cases htip : inp.tip with
      | none => simp [IsInitialBlockDownload, himp, htip] at h
      | some tip =>
        by_cases h1 : tip.1 < inp.nMinimumChainWork
        · simp [IsInitialBlockDownload, himp, htip, h1] at h
        · by_cases h2 : tip.2 < inp.now - inp.nMaxTipAge
          · simp [IsInitialBlockDownload, himp, htip, h1, h2] at h
          · simp [IsInitialBlockDownload, himp, htip, h1, h2]

theorem runIBD_latched (inps : List IBDInput) :
    runIBD true inps = inps.map (fun _ => false) := by
  induction inps with
  | nil => rfl
  | cons inp rest ih =>
    have hh : runIBD true (inp :: rest) = false :: runIBD true rest := rfl
    rw [hh, ih, List.map_cons]

/-- C10: the latch makes `IsInitialBlockDownload` monotone over a run of
the process: in any sequence of calls (each with arbitrary
importing/reindex flags, tip, chain work and clock), once some call has
answered `false`, every later call answers `false`. -/
theorem isInitialBlockDownload_latch_monotone (inps : List IBDInput)
    (i j : Nat) (hij : i < j) (hj : j < (runIBD false inps).length)
    (hi : (runIBD false inps).get? i = some false) :
    (runIBD false inps).get? j = some false := by
  suffices hgen : ∀ (latch : Bool) (l : List IBDInput) (a b : Nat),
      a < b → b < (runIBD latch l).length →
      (runIBD latch l).get? a = some false →
      (runIBD latch l).get? b = some false by
    exact hgen false inps i j hij hj hi
  intro latch l
  induction l generalizing latch with
  | nil =>
    intro a b hab hb ha
    simp [runIBD] at hb
  | cons inp rest ih =>
    intro a b hab hb ha
    cases a with
    | zero =>
      simp only [runIBD, List.get?] at ha
      have hans : (IsInitialBlockDownload latch inp).1 = false :=
        Option.some.inj ha
      have hlatch := ibd_false_sets_latch latch inp hans
      cases b with
      | zero => omega
      | succ b1 =>
        simp only [runIBD, List.get?]
        rw [hlatch, runIBD_latched]
        have hb1 : b1 < rest.length := by
          simp only [runIBD, List.length_cons, hlatch, runIBD_latched,
            List.length_map] at hb
          omega
        rw [List.get?_map]
        rw [List.get?_eq_get hb1]
        rfl
    | succ a1 =>
      cases b with
      | zero => omega
      | succ b1 =>
        simp only [runIBD, List.get?] at ha hb ⊢
        simp only [List.length_cons] at hb
        exact ih _ a1 b1 (by omega) (by omega) ha

/-- Witness for C10: after a call answers `false` on a synced tip, a
later call still answers `false` even with the importing flag raised. -/
theorem isInitialBlockDownload_latch_monotone_witness :
    (runIBD false
        [⟨false, false, some (10, 1000), 5, 1000, 100⟩,
         ⟨true, false, some (10, 1000), 5, 1000, 100⟩]).get? 0 =
      some false ∧
    (runIBD false
        [⟨false, false, some (10, 1000), 5, 1000, 100⟩,
         ⟨true, false, some (10, 1000), 5, 1000, 100⟩]).get? 1 =
      some false := by
  constructor
  · decide
  · exact isInitialBlockDownload_latch_monotone
      [⟨false, false, some (10, 1000), 5, 1000, 100⟩,
       ⟨true, false, some (10, 1000), 5, 1000, 100⟩]
      0 1 (by decide) (by decide) (by decide)

end Validation
